import Mathlib

/-!
# Verification of the baiji-gateway batch orchestrator (src/index.js)

Shallow embedding of the gateway plugin's core functions:
`validateSchema`, `filterAllowedMethods`, the dependency grouper inside
`executeApis` (sort comparator + signature bucketing), the staged executor
with per-call error capture, `forceOrder`, and the mount handler.

Modelling conventions:
* JS objects used as ordered string-keyed dictionaries are association
  lists `List (String × _)`; JS object keys are unique, which appears as
  `Nodup` hypotheses where a statement needs it.
* A sub-call (one schema entry) is `Api P`: `method : String` (the JS
  falsy check `!api.method` becomes `method == ""`), opaque `params : P`,
  and `dependencies : List String` (`castToArray` normalisation is
  reflected in the list type).
* The external method registry (baiji's `app.composedMethods()` snapshot)
  is an association list from full method name to a deterministic invoker
  `P → Except E V`; a promise that fulfils is `Except.ok`, one that
  rejects is `Except.error`.  Invoking a name absent from the snapshot
  throws a TypeError inside the promise executor of `invokeApiByName`
  (`method.invoke` on `undefined`), which rejects the promise; the model
  maps it to `Except.error (missingErr name)`.
* `Array.prototype.sort` with the gateway's comparator: the comparator is
  not a consistent total order, so ECMAScript leaves the result
  implementation-defined; the model fixes a stable comparison sort
  (insertion sort, which is what the stable TimSort of modern engines
  runs on small arrays) keeping `a` before `b` whenever
  `compare a b ≤ 0`.
* `micromatch(list, patterns)` keeps the members of `list` matching at
  least one glob pattern; with an empty pattern list nothing matches.
  Glob semantics: `*` matches any run of characters, `?` one character,
  everything else is literal (method names contain no `/`, so the
  slash-awareness of micromatch never matters here).
-/

namespace BaijiGateway

/-- One sub-call of a batch document (`{method, params, dependencies}`). -/
structure Api (P : Type) where
  method : String
  params : P
  dependencies : List String
deriving DecidableEq

/-- A batch document in mapping form: ordered association of names to sub-calls. -/
abbrev Schema (P : Type) := List (String × Api P)

/-- Error value produced by `createError(statusCode, message)` in src/index.js. -/
structure GatewayError where
  status : Nat
  message : String
deriving DecidableEq

/-- `createError` from src/index.js (the `toJSON` wrapper carries no extra data). -/
def createError (statusCode : Nat) (message : String) : GatewayError :=
  { status := statusCode, message := message }

/-- Glob matching of a pattern against a string, both as character lists:
`*` matches any run, `?` a single character, anything else literally. -/
def globMatch : List Char → List Char → Bool
  | [], [] => true
  | '*' :: ps, [] => globMatch ps []
  | '*' :: ps, c :: s => globMatch ps (c :: s) || globMatch ('*' :: ps) s
  | '?' :: ps, _ :: s => globMatch ps s
  | p :: ps, c :: s => p == c && globMatch ps s
  | _ :: _, [] => false
  | [], _ :: _ => false
termination_by ps s => (ps.length, s.length)

/-- Does string `s` match glob pattern `pat`? -/
def mmIsMatch (pat s : String) : Bool := globMatch pat.data s.data

/-- Model of `micromatch(list, patterns)`: members of `list` matching at
least one pattern, in order.  An empty pattern list matches nothing. -/
def mm (list : List String) (patterns : List String) : List String :=
  list.filter fun s => patterns.any fun p => mmIsMatch p s

/-- The plugin options after the defaulting at the top of `baijiGatewayPlugin`
(only the fields the core logic reads). -/
structure Options where
  max : Nat
  allowedAPIs : List String
  forbiddenAPIs : List String
  name : String
deriving DecidableEq

/-- Options produced from an empty `options` argument:
`max = 50`, empty allow and deny lists, gateway name `__gateway__`. -/
def defaultOptions : Options :=
  { max := 50, allowedAPIs := [], forbiddenAPIs := [], name := "__gateway__" }

/-- A registered method as seen by `filterAllowedMethods`: its short
`method.name` and its `method.fullName()`. -/
structure MethodInfo where
  name : String
  fullName : String
deriving DecidableEq

/-- lodash `_.difference(a, b)`: members of `a` not occurring in `b`, in order. -/
def jsDifference (a b : List String) : List String := a.filter fun x => !b.contains x

/-- `filterAllowedMethods` from src/index.js, on the level of method names:
drop the gateway's own method, remove deny-list matches, then keep only
allow-list matches (`_.pick` restricted to these names preserves exactly
this name list). -/
def filterAllowedMethods (opts : Options) (methods : List MethodInfo) : List String :=
  let allMethodNames := (methods.filter fun m => m.name != opts.name).map MethodInfo.fullName
  let filteredMethods := jsDifference allMethodNames (mm allMethodNames opts.forbiddenAPIs)
  mm filteredMethods opts.allowedAPIs

/-- The `if (!~apis.indexOf(api.method)) apis.push(api.method)` step of
`validateSchema`: append a method name unless already present. -/
def pushUniq (acc : List String) (m : String) : List String :=
  if acc.contains m then acc else acc ++ [m]

/-- The distinct referenced method names, in first-occurrence order,
as accumulated by the `_.map` loop of `validateSchema`. -/
def collectApis {P : Type} (schema : Schema P) : List String :=
  schema.foldl (fun acc x => pushUniq acc x.2.method) []

/-- The self-dependency test of `validateSchema`:
`api.dependencies && api.dependencies.length && ~api.dependencies.indexOf(name)`. -/
def selfDependent {P : Type} (x : String × Api P) : Bool :=
  !x.2.dependencies.isEmpty && x.2.dependencies.contains x.1

/-- `validateSchema` from src/index.js: structural check (empty method or
self-dependency), distinct-method cardinality check against `options.max`,
then deny-list and allow-list glob checks. -/
def validateSchema {P : Type} (opts : Options) (schema : Schema P) : Option GatewayError :=
  let hasError := schema.any fun x => x.2.method == "" || selfDependent x
  let apis := collectApis schema
  let apisCount := apis.length
  if apisCount == 0 || hasError then some (createError 422 "Invalid Request Body")
  else if apisCount > opts.max then some (createError 406 "Max Requests Exceeded")
  else
    let forbidden :=
      (!opts.forbiddenAPIs.isEmpty && !(mm apis opts.forbiddenAPIs).isEmpty) ||
      (!opts.allowedAPIs.isEmpty && (mm apis opts.allowedAPIs).length != apis.length)
    if forbidden then some (createError 403 "Forbidden Request") else none

/-- Value stored under a sub-call's key in the result object: the fulfilled
value, the captured rejection, or JS `undefined` (what reading an absent
key yields). -/
inductive CallResult (V E : Type) where
  | ok : V → CallResult V E
  | err : E → CallResult V E
  | undef : CallResult V E
deriving DecidableEq

/-- The mount-time `ALL_METHODS` snapshot: full method name to invoker. -/
abbrev Registry (P V E : Type) := List (String × (P → Except E V))

/-- `invokeApiByName` from src/index.js.  A name absent from the snapshot
makes `method.invoke(mockCtx)` throw synchronously inside the promise
executor, rejecting the promise; modelled as `Except.error (missingErr name)`. -/
def invokeApiByName {P V E : Type} (registry : Registry P V E) (missingErr : String → E)
    (name : String) (args : P) : Except E V :=
  match registry.lookup name with
  | some f => f args
  | none => Except.error (missingErr name)

/-- The settled outcome of one `apiInvoker` thunk: `result[name] = res` on
fulfilment, `result[name] = err` on rejection (the `.then/.catch` pair of
`executeApis`). -/
def callOutcome {P V E : Type} (registry : Registry P V E) (missingErr : String → E)
    (api : Api P) : CallResult V E :=
  match invokeApiByName registry missingErr api.method api.params with
  | Except.ok v => CallResult.ok v
  | Except.error e => CallResult.err e

/-- The sort comparator of `executeApis` (the `.tap(res.sort(...))` step). -/
def apiCompare {P : Type} (a b : String × Api P) : Int :=
  let aDep := a.2.dependencies
  let bDep := b.2.dependencies
  if bDep.contains a.1 then -1
  else if aDep.contains b.1 then 1
  else if aDep.isEmpty && !bDep.isEmpty then -1
  else if bDep.isEmpty && !aDep.isEmpty then 1
  else if aDep.length < bDep.length then -1
  else if bDep.length < aDep.length then 1
  else if b.1 < a.1 then -1
  else if a.1 < b.1 then 1
  else 0

/-- `res.sort(comparator)`, modelled as a stable comparison sort keeping
`a` before `b` whenever the comparator does not order them the other way. -/
def sortApis {P : Type} (schema : Schema P) : Schema P :=
  List.insertionSort (fun a b => apiCompare a b ≤ 0) schema

/-- The dependency signature `item.api.dependencies.map(String).join('.')`. -/
def depKey {P : Type} (x : String × Api P) : String :=
  String.intercalate "." x.2.dependencies

/-- `group[index].push(item)` on a JS array of buckets: extend the bucket at
`i`, or start a fresh bucket when `i` is one past the end (the only
out-of-range index the grouping loop produces). -/
def pushAt {A : Type} : List (List A) → Nat → A → List (List A)
  | [], _, a => [[a]]
  | b :: g, 0, a => (b ++ [a]) :: g
  | b :: g, i + 1, a => b :: pushAt g i a

/-- The grouping `.tap` of `executeApis`: walk the sorted items keeping the
list `order` of signatures in first-appearance order and the parallel
bucket list `group`; each item joins the bucket of its signature. -/
def groupApis {P : Type} : Schema P → List String → List (Schema P) → List (Schema P)
  | [], _, group => group
  | x :: rest, order, group =>
    let key := depKey x
    let order1 := if order.contains key then order else order ++ [key]
    let index := order1.indexOf key
    groupApis rest order1 (pushAt group index x)

/-- The execution plan of a schema: stages (buckets) of the grouping step,
after normalisation and sorting. -/
def executionPlan {P : Type} (schema : Schema P) : List (Schema P) :=
  groupApis (sortApis schema) [] []

/-- JS object write `o[k] = v`: replace the binding of `k`, or append it. -/
def objSet {A : Type} : List (String × A) → String → A → List (String × A)
  | [], k, v => [(k, v)]
  | kv :: o, k, v => if kv.1 == k then (k, v) :: o else kv :: objSet o k v

/-- `executeApis` from src/index.js up to its settled `result` object:
run every stage's thunks (`execStack` awaits each stage before the next;
writes inside a stage target distinct keys, so this sequential fold is a
faithful linearisation), each thunk storing its settled outcome under its
sub-call's name.  The surrounding promise always fulfils because every
thunk catches its own rejection. -/
def executeApis {P V E : Type} (registry : Registry P V E) (missingErr : String → E)
    (schema : Schema P) : List (String × CallResult V E) :=
  (executionPlan schema).flatten.foldl
    (fun result x => objSet result x.1 (callOutcome registry missingErr x.2)) []

/-- JS object read `o[k]`, with `dflt` playing `undefined`. -/
def objGet {A : Type} (o : List (String × A)) (k : String) (dflt : A) : A :=
  (o.lookup k).getD dflt

/-- `forceOrder(obj1, obj2)` from src/index.js: rebuild `obj1` with exactly
`obj2`'s keys in `obj2`'s order (`obj[key] = obj1[String(key)]`). -/
def forceOrder {V E B : Type} (obj1 : List (String × CallResult V E))
    (obj2 : List (String × B)) : List (String × CallResult V E) :=
  obj2.map fun kv => (kv.1, objGet obj1 kv.1 CallResult.undef)

/-- Outcome of the gateway route handler: the error path
(`ctx.status(error.status); ctx.done(error)`) or the success path
(`ctx.done(data)`). -/
inductive GatewayResponse (A : Type) where
  | errorResp : GatewayError → GatewayResponse A
  | success : A → GatewayResponse A
deriving DecidableEq

/-- The mount handler of src/index.js on a mapping-form body: validate,
then execute and re-order; a mapping-form schema is returned as the
re-ordered result object itself. -/
def gatewayHandle {P V E : Type} (opts : Options) (registry : Registry P V E)
    (missingErr : String → E) (schema : Schema P) :
    GatewayResponse (List (String × CallResult V E)) :=
  match validateSchema opts schema with
  | some e => GatewayResponse.errorResp e
  | none =>
    GatewayResponse.success (forceOrder (executeApis registry missingErr schema) schema)

/-- An array-form body as the equivalent mapping: lodash iterates an array
with its numeric indices as keys, which coerce to the strings "0", "1", …
when used as result-object keys. -/
def arrayToSchema {P : Type} (l : List (Api P)) : Schema P :=
  l.enum.map fun ia => (toString ia.1, ia.2)

/-- The mount handler on an array-form body: as `gatewayHandle`, but the
success payload is `_.values(res)` - the re-ordered values without keys. -/
def gatewayHandleArray {P V E : Type} (opts : Options) (registry : Registry P V E)
    (missingErr : String → E) (l : List (Api P)) :
    GatewayResponse (List (CallResult V E)) :=
  let schema := arrayToSchema l
  match validateSchema opts schema with
  | some e => GatewayResponse.errorResp e
  | none =>
    GatewayResponse.success
      ((forceOrder (executeApis registry missingErr schema) schema).map Prod.snd)

/-- The `(method, params)` invocations `executeApis` performs, in stage order. -/
def executionCalls {P : Type} (schema : Schema P) : List (String × P) :=
  (executionPlan schema).flatten.map fun x => (x.2.method, x.2.params)

/-- The invocations the mount handler performs on a body: none on the
validation-error path (it never reaches `executeApis`), otherwise those of
`executeApis`. -/
def gatewayCalls {P : Type} (opts : Options) (schema : Schema P) : List (String × P) :=
  match validateSchema opts schema with
  | some _ => []
  | none => executionCalls schema

/-- Index of the stage containing the sub-call named `n`, if any. -/
def stageOf {P : Type} (plan : List (Schema P)) (n : String) : Option Nat :=
  plan.findIdx? fun b => b.any fun x => x.1 == n

/-- The ordering property claimed of execution plans: every sub-call sits in
a stage strictly later than each of its dependencies. -/
def planRespectsDeps {P : Type} (schema : Schema P) (plan : List (Schema P)) : Bool :=
  schema.all fun x => x.2.dependencies.all fun d =>
    match stageOf plan x.1, stageOf plan d with
    | some i, some j => decide (j < i)
    | _, _ => false

/-- Every dependency name referenced in the schema is defined in it. -/
def depsDefined {P : Type} (schema : Schema P) : Bool :=
  schema.all fun x => x.2.dependencies.all fun d => schema.any fun y => y.1 == d

/-- Is a stored call result a fulfilled value (as opposed to a captured
error or `undefined`)? -/
def isOkResult {V E : Type} : CallResult V E → Bool
  | CallResult.ok _ => true
  | _ => false

/-! ### Concrete fixtures for counterexamples and witnesses -/

/-- A sub-call with `Nat` params, for concrete instances. -/
def mkApi (m : String) (deps : List String) : Api Nat :=
  { method := m, params := 0, dependencies := deps }

/-- Two sub-calls forming a dependency cycle: no self-dependency, every
dependency name defined, so validation accepts the document. -/
def cycSchema : Schema Nat := [("a", mkApi "m.x" ["b"]), ("b", mkApi "m.x" ["a"])]

/-- The example app's three-call chain (`index` after `update` after `show`). -/
def chainSchema : Schema Nat :=
  [("index", mkApi "app.index" ["update"]),
   ("update", mkApi "app.update" ["show"]),
   ("show", mkApi "app.show" [])]

/-- Options with `max := 2` and no allow/deny patterns. -/
def maxTwoOptions : Options :=
  { max := 2, allowedAPIs := [], forbiddenAPIs := [], name := "__gateway__" }

/-- Options with `max := 1` and no allow/deny patterns. -/
def maxOneOptions : Options :=
  { max := 1, allowedAPIs := [], forbiddenAPIs := [], name := "__gateway__" }

/-- Three sub-calls all targeting the single method `m.x`. -/
def threeSameMethod : Schema Nat :=
  [("a", mkApi "m.x" []), ("b", mkApi "m.x" []), ("c", mkApi "m.x" [])]

/-- Three sub-calls targeting three distinct methods. -/
def threeDistinct : Schema Nat :=
  [("a", mkApi "m.x" []), ("b", mkApi "m.y" []), ("c", mkApi "m.z" [])]

/-- Policy with deny pattern `internal.*` and no allow-list. -/
def denyOptions : Options :=
  { max := 50, allowedAPIs := [], forbiddenAPIs := ["internal.*"], name := "__gateway__" }

/-- Policy with allow pattern `app.*` and deny pattern `internal.*`. -/
def mixedPolicyOptions : Options :=
  { max := 50, allowedAPIs := ["app.*"], forbiddenAPIs := ["internal.*"], name := "__gateway__" }

/-- A batch whose single sub-call references a denied method and also
depends on itself. -/
def selfDepDenied : Schema Nat := [("a", mkApi "internal.secret" ["a"])]

/-- A batch whose single sub-call references a denied method (and is
otherwise well-formed). -/
def deniedBatch : Schema Nat := [("a", mkApi "internal.secret" [])]

/-- The example app's registered methods: `app.index` plus the gateway's
own `__gateway__` method. -/
def exampleMethods : List MethodInfo :=
  [{ name := "index", fullName := "app.index" },
   { name := "__gateway__", fullName := "app.__gateway__" }]

/-- A batch referencing the example app's registered `app.index`. -/
def exampleBatch : Schema Nat := [("a", mkApi "app.index" [])]

/-- Concrete registry: `m.ok` fulfils with `params + 1`, `m.bad` rejects. -/
def sampleRegistry : Registry Nat Nat String :=
  [("m.ok", fun p => Except.ok (p + 1)), ("m.bad", fun _ => Except.error "boom")]

/-- Concrete stand-in for the TypeError raised when an unknown method name
is invoked. -/
def sampleMissingErr (n : String) : String := "TypeError: " ++ n

/-- A batch in which exactly the sub-call `b` fails. -/
def mixedBatch : Schema Nat :=
  [("a", { method := "m.ok", params := 5, dependencies := [] }),
   ("b", { method := "m.bad", params := 0, dependencies := ["a"] }),
   ("c", { method := "m.ok", params := 7, dependencies := ["a"] })]

/-- A batch containing a sub-call whose method is not in the registry. -/
def missingBatch : Schema Nat :=
  [("a", { method := "m.ok", params := 5, dependencies := [] }),
   ("c", { method := "m.miss", params := 0, dependencies := ["a"] })]

/-- An array-form batch of two sub-calls. -/
def arrayBatch : List (Api Nat) :=
  [{ method := "m.ok", params := 1, dependencies := [] },
   { method := "m.bad", params := 2, dependencies := [] }]

/-- A batch whose first sub-call has an empty method string. -/
def emptyMethodBatch : Schema Nat := [("a", mkApi "" []), ("b", mkApi "m.x" [])]

/-- A concrete result mapping (one settled value, other keys absent). -/
def sampleResult : List (String × CallResult Nat String) := [("b", CallResult.ok 3)]

/-- Invariant of the grouping loop: the bucket list and the signature
order list run in lockstep — bucket `i` holds only items whose dependency
signature is the `i`-th signature in first-appearance order. -/
def StagesKeyed {P : Type} (order : List String) (group : List (Schema P)) : Prop :=
  group.length = order.length ∧
  ∀ i : Nat, ∀ x ∈ group.getD i [], depKey x = order.getD i ""

end BaijiGateway

namespace BaijiGateway

/-! ## Lemmas about JS-object writes and reads -/

theorem objSet_lookup_self {A : Type} (o : List (String × A)) (k : String) (v : A) :
    (objSet o k v).lookup k = some v := by
  induction o with
  | nil => simp [objSet, List.lookup]
  | cons kv o ih =>
    by_cases h : kv.1 = k
    · simp [objSet, h, List.lookup]
    · have hb : (kv.1 == k) = false := by simp [h]
      have hb2 : (k == kv.1) = false := by simp [Ne.symm h]
      simp [objSet, hb, List.lookup, hb2, ih]

theorem objSet_lookup_ne {A : Type} (o : List (String × A)) (k k' : String) (v : A)
    (h : k' ≠ k) : (objSet o k v).lookup k' = o.lookup k' := by
  have hkk : (k' == k) = false := by simp [h]
  induction o with
  | nil => simp [objSet, List.lookup, hkk]
  | cons kv o ih =>
    by_cases hk : kv.1 = k
    · subst hk
      simp [objSet, List.lookup, hkk]
    · have hb : (kv.1 == k) = false := by simp [hk]
      cases hc : k' == kv.1 <;> simp [objSet, hb, List.lookup, hc, ih]

theorem foldl_objSet_lookup_of_not_mem {A B : Type} (f : B → A) (key : B → String)
    (l : List B) (o : List (String × A)) (n : String) (h : n ∉ l.map key) :
    (l.foldl (fun r y => objSet r (key y) (f y)) o).lookup n = o.lookup n := by
  induction l generalizing o with
  | nil => rfl
  | cons y l ih =>
    simp only [List.map_cons, List.mem_cons, not_or] at h
    rw [List.foldl_cons, ih _ h.2, objSet_lookup_ne _ _ _ _ h.1]

theorem foldl_objSet_lookup {A B : Type} (f : B → A) (key : B → String)
    (l : List B) (o : List (String × A)) (x : B)
    (hnd : (l.map key).Nodup) (hx : x ∈ l) :
    (l.foldl (fun r y => objSet r (key y) (f y)) o).lookup (key x) = some (f x) := by
  induction l generalizing o with
  | nil => cases hx
  | cons y l ih =>
    rw [List.map_cons, List.nodup_cons] at hnd
    rcases List.mem_cons.1 hx with rfl | hx
    · rw [List.foldl_cons, foldl_objSet_lookup_of_not_mem f key l _ _ hnd.1]
      exact objSet_lookup_self o (key x) (f x)
    · rw [List.foldl_cons]
      exact ih _ hnd.2 hx

/-! ## Lemmas about `forceOrder` -/

theorem forceOrder_keys {V E B : Type} (r : List (String × CallResult V E))
    (d : List (String × B)) : (forceOrder r d).map Prod.fst = d.map Prod.fst := by
  simp [forceOrder, List.map_map, Function.comp]

theorem forceOrder_lookup {V E B : Type} (r : List (String × CallResult V E))
    (d : List (String × B)) (k : String) (h : k ∈ d.map Prod.fst) :
    (forceOrder r d).lookup k = some (objGet r k CallResult.undef) := by
  induction d with
  | nil => simp at h
  | cons kv d ih =>
    by_cases hk : k = kv.1
    · simp [forceOrder, List.lookup, hk]
    · have hm : k ∈ d.map Prod.fst := by
        rcases List.mem_cons.1 h with h1 | h1
        · exact absurd h1 hk
        · exact h1
      have hc : (k == kv.1) = false := by simp [hk]
      simpa [forceOrder, List.lookup, hc] using ih hm

/-- C9: assembly is idempotent — re-assembling an already assembled result
mapping with the same batch document returns it unchanged, keys, order and
values alike: `forceOrder (forceOrder r d) d = forceOrder r d`. -/
theorem C9_assembly_idempotent {P V E : Type} (r : List (String × CallResult V E))
    (d : Schema P) : forceOrder (forceOrder r d) d = forceOrder r d := by
  show d.map _ = d.map _
  apply List.map_congr_left
  intro kv hkv
  have hk : kv.1 ∈ d.map Prod.fst := List.mem_map_of_mem Prod.fst hkv
  simp [objGet, forceOrder_lookup r d kv.1 hk]

end BaijiGateway

namespace BaijiGateway

/-! ## Lemmas about `validateSchema` -/

theorem validateSchema_of_hasError {P : Type} (opts : Options) (schema : Schema P)
    (h : (schema.any fun x => x.2.method == "" || selfDependent x) = true) :
    validateSchema opts schema = some (createError 422 "Invalid Request Body") := by
  unfold validateSchema
  simp [h]

theorem structural_ok_any_false {P : Type} {schema : Schema P}
    (h : ∀ x ∈ schema, x.2.method ≠ "" ∧ x.1 ∉ x.2.dependencies) :
    (schema.any fun x => x.2.method == "" || selfDependent x) = false := by
  rw [List.any_eq_false]
  intro x hx
  rcases h x hx with ⟨h1, h2⟩
  simp [selfDependent, h1, h2]

theorem foldl_pushUniq_ne_nil {P : Type} (l : Schema P) (acc : List String) (hacc : acc ≠ []) :
    l.foldl (fun a x => pushUniq a x.2.method) acc ≠ [] := by
  induction l generalizing acc with
  | nil => exact hacc
  | cons x l ih =>
    rw [List.foldl_cons]
    apply ih
    unfold pushUniq
    split
    · exact hacc
    · simp

theorem collectApis_ne_nil {P : Type} (schema : Schema P) (h : schema ≠ []) :
    collectApis schema ≠ [] := by
  cases schema with
  | nil => exact absurd rfl h
  | cons x l =>
    unfold collectApis
    rw [List.foldl_cons]
    apply foldl_pushUniq_ne_nil
    simp [pushUniq]

theorem mem_pushUniq {acc : List String} {m mth : String} :
    m ∈ pushUniq acc mth ↔ m ∈ acc ∨ m = mth := by
  by_cases hc : acc.contains mth
  · have hmem : mth ∈ acc := by simpa using hc
    simp only [pushUniq, hc, if_true]
    constructor
    · exact Or.inl
    · rintro (h | rfl)
      · exact h
      · exact hmem
  · have hnm : mth ∉ acc := by simpa using hc
    simp [pushUniq, hnm]

theorem mem_collectApis {P : Type} (schema : Schema P) (m : String) :
    m ∈ collectApis schema ↔ ∃ x ∈ schema, x.2.method = m := by
  suffices h : ∀ acc, m ∈ schema.foldl (fun a x => pushUniq a x.2.method) acc ↔
      m ∈ acc ∨ ∃ x ∈ schema, x.2.method = m by
    simpa [collectApis] using h []
  induction schema with
  | nil => intro acc; simp
  | cons y l ih =>
    intro acc
    rw [List.foldl_cons, ih, mem_pushUniq]
    constructor
    · rintro ((h | h) | ⟨x, hx, he⟩)
      · exact Or.inl h
      · exact Or.inr ⟨y, List.mem_cons_self _ _, h.symm⟩
      · exact Or.inr ⟨x, List.mem_cons_of_mem _ hx, he⟩
    · rintro (h | ⟨x, hx, he⟩)
      · exact Or.inl (Or.inl h)
      · rcases List.mem_cons.1 hx with rfl | hx'
        · exact Or.inl (Or.inr he.symm)
        · exact Or.inr ⟨x, hx', he⟩

theorem foldl_pushUniq_const {P : Type} (l : Schema P) (m : String)
    (hall : ∀ x ∈ l, x.2.method = m) :
    l.foldl (fun a x => pushUniq a x.2.method) [m] = [m] := by
  induction l with
  | nil => rfl
  | cons y l ih =>
    rw [List.foldl_cons]
    have hy : y.2.method = m := hall y (List.mem_cons_self _ _)
    have hp : pushUniq [m] y.2.method = [m] := by simp [pushUniq, hy]
    rw [hp]
    exact ih fun x hx => hall x (List.mem_cons_of_mem _ hx)

theorem collectApis_const {P : Type} (schema : Schema P) (m : String)
    (hall : ∀ x ∈ schema, x.2.method = m) (hne : schema ≠ []) :
    collectApis schema = [m] := by
  cases schema with
  | nil => exact absurd rfl hne
  | cons y l =>
    unfold collectApis
    rw [List.foldl_cons]
    have hy : y.2.method = m := hall y (List.mem_cons_self _ _)
    have h0 : pushUniq [] y.2.method = [m] := by simp [pushUniq, hy]
    rw [h0]
    exact foldl_pushUniq_const l m fun x hx => hall x (List.mem_cons_of_mem _ hx)

theorem validateSchema_reduce {P : Type} (opts : Options) (schema : Schema P)
    (hs : (schema.any fun x => x.2.method == "" || selfDependent x) = false)
    (hne : collectApis schema ≠ []) :
    validateSchema opts schema =
      (if (collectApis schema).length > opts.max then
        some (createError 406 "Max Requests Exceeded")
      else if ((!opts.forbiddenAPIs.isEmpty &&
            !(mm (collectApis schema) opts.forbiddenAPIs).isEmpty) ||
          (!opts.allowedAPIs.isEmpty &&
            (mm (collectApis schema) opts.allowedAPIs).length !=
              (collectApis schema).length)) = true then
        some (createError 403 "Forbidden Request")
      else none) := by
  have hlen : ((collectApis schema).length == 0) = false := by
    simp [List.length_eq_zero, hne]
  unfold validateSchema
  simp only [hs, hlen, Bool.or_false, if_false, Bool.false_eq_true, if_neg]

end BaijiGateway

namespace BaijiGateway

/-! ## Lemmas about the glob filter -/

theorem mm_isEmpty_false_iff (list patterns : List String) :
    (mm list patterns).isEmpty = false ↔
      ∃ s ∈ list, ∃ p ∈ patterns, mmIsMatch p s = true := by
  rw [List.isEmpty_eq_false]
  unfold mm
  constructor
  · intro h
    obtain ⟨s, hs⟩ := List.exists_mem_of_ne_nil _ h
    have hm := List.of_mem_filter hs
    rw [List.any_eq_true] at hm
    obtain ⟨p, hp, hmp⟩ := hm
    exact ⟨s, List.mem_of_mem_filter hs, p, hp, hmp⟩
  · rintro ⟨s, hs, p, hp, hm⟩
    have : s ∈ list.filter fun s => patterns.any fun p => mmIsMatch p s :=
      List.mem_filter.2 ⟨hs, List.any_eq_true.2 ⟨p, hp, hm⟩⟩
    exact List.ne_nil_of_mem this

theorem mm_length_ne_iff (list patterns : List String) :
    (mm list patterns).length ≠ list.length ↔
      ∃ s ∈ list, ∀ p ∈ patterns, mmIsMatch p s = false := by
  unfold mm
  constructor
  · intro h
    by_contra hcon
    push_neg at hcon
    apply h
    have heq : (list.filter fun s => patterns.any fun p => mmIsMatch p s) = list := by
      rw [List.filter_eq_self]
      intro a ha
      rw [List.any_eq_true]
      obtain ⟨p, hp, hm⟩ := hcon a ha
      exact ⟨p, hp, by simpa using hm⟩
    rw [heq]
  · rintro ⟨s, hs, hall⟩ h
    have heq : (list.filter fun s => patterns.any fun p => mmIsMatch p s) = list :=
      (List.filter_sublist list).eq_of_length h
    rw [List.filter_eq_self] at heq
    have hany := heq s hs
    rw [List.any_eq_true] at hany
    obtain ⟨p, hp, hm⟩ := hany
    rw [hall p hp] at hm
    cases hm

/-! ## C6: structural errors short-circuit the batch -/

/-- C6: a batch containing a sub-call with a missing/empty method, or one
whose dependencies contain its own name, fails validation with
InvalidRequestBody (status 422), the mount handler answers with exactly
that error, and no sub-call is ever invoked. -/
theorem C6_invalid_body_short_circuit {P V E : Type} (opts : Options)
    (registry : Registry P V E) (missingErr : String → E) (schema : Schema P)
    (hbad : ∃ x ∈ schema, x.2.method = "" ∨ x.1 ∈ x.2.dependencies) :
    validateSchema opts schema = some (createError 422 "Invalid Request Body") ∧
    gatewayHandle opts registry missingErr schema =
      GatewayResponse.errorResp (createError 422 "Invalid Request Body") ∧
    gatewayCalls opts schema = [] := by
  obtain ⟨x, hx, hor⟩ := hbad
  have hany : (schema.any fun y => y.2.method == "" || selfDependent y) = true := by
    rw [List.any_eq_true]
    refine ⟨x, hx, ?_⟩
    rcases hor with h | h
    · simp [h]
    · have hni : x.2.dependencies ≠ [] := List.ne_nil_of_mem h
      simp [selfDependent, h, hni]
  have hv := validateSchema_of_hasError opts schema hany
  exact ⟨hv, by simp [gatewayHandle, hv], by simp [gatewayCalls, hv]⟩

/-- Witness for C6 at a concrete input: the batch whose first sub-call has
an empty method string is rejected with status 422 and nothing is invoked. -/
theorem C6_invalid_body_short_circuit_witness :
    validateSchema defaultOptions emptyMethodBatch =
      some (createError 422 "Invalid Request Body") ∧
    gatewayHandle defaultOptions sampleRegistry sampleMissingErr emptyMethodBatch =
      GatewayResponse.errorResp (createError 422 "Invalid Request Body") ∧
    gatewayCalls defaultOptions emptyMethodBatch = [] :=
  C6_invalid_body_short_circuit defaultOptions sampleRegistry sampleMissingErr
    emptyMethodBatch (by decide)

/-! ## C2: empty allow-list -/

/-- C2 (evaluation at the failing input): under the default options, whose
allow-list is empty, the mount-time snapshot filter returns the empty
method list even though `app.index` is registered — so no method remains
invocable — although validation of a batch referencing `app.index` indeed
reports no error (in particular no ForbiddenRequest from the allow-list).
The claim (and the spec's "empty = allow all") holds of `validateSchema`
but not of `filterAllowedMethods`, which lacks the `allowedAPIs.length`
guard and hands the empty pattern list straight to the matcher. -/
theorem C2_empty_allowlist_snapshot :
    filterAllowedMethods defaultOptions exampleMethods = [] ∧
    validateSchema defaultOptions exampleBatch = none := by decide

/-! ## C3: the cardinality check -/

/-- C3 (counterexample): a document with 3 well-formed sub-calls (non-empty
methods, no self-dependencies) under policy max = 2 is accepted by
validation — not rejected with MaxRequestsExceeded as the claim requires —
because all three sub-calls target the same method string. -/
theorem C3_subcall_count_counterexample :
    threeSameMethod.length = 3 ∧ maxTwoOptions.max = 2 ∧
    (∀ x ∈ threeSameMethod, x.2.method ≠ "" ∧ x.1 ∉ x.2.dependencies) ∧
    validateSchema maxTwoOptions threeSameMethod = none := by decide

/-- C3 (amended): for documents whose sub-calls all have a non-empty method
and no self-dependency, validation returns MaxRequestsExceeded exactly when
the number of distinct referenced method strings exceeds the configured
maximum. -/
theorem C3_max_requests_distinct {P : Type} (opts : Options) (schema : Schema P)
    (h : ∀ x ∈ schema, x.2.method ≠ "" ∧ x.1 ∉ x.2.dependencies) :
    validateSchema opts schema = some (createError 406 "Max Requests Exceeded") ↔
      opts.max < (collectApis schema).length := by
  have hs := structural_ok_any_false h
  by_cases hnil : schema = []
  · subst hnil
    simp [validateSchema, collectApis, createError]
  · have hne := collectApis_ne_nil schema hnil
    rw [validateSchema_reduce opts schema hs hne]
    by_cases hmax : (collectApis schema).length > opts.max
    · simp [hmax]
    · rw [if_neg hmax]
      split
      · simp [createError, hmax]
      · simp [hmax]

/-- Witness for C3 (amended) at a concrete input: three sub-calls with three
distinct methods under max = 2. -/
theorem C3_max_requests_distinct_witness :
    validateSchema maxTwoOptions threeDistinct =
      some (createError 406 "Max Requests Exceeded") ↔
      maxTwoOptions.max < (collectApis threeDistinct).length :=
  C3_max_requests_distinct maxTwoOptions threeDistinct (by decide)

/-! ## C10: distinct-method counting -/

/-- C10: the cardinality check counts distinct method strings, not sub-call
entries.  In any batch whose (well-formed) sub-calls all target the single
method `m`, the collected distinct-method list collapses to `[m]`, so the
batch passes validation — however many sub-calls it has — even under
`max = 1` with no allow/deny patterns configured. -/
theorem C10_distinct_method_count {P : Type} (opts : Options) (schema : Schema P)
    (m : String) (hm : m ≠ "")
    (hall : ∀ x ∈ schema, x.2.method = m ∧ x.1 ∉ x.2.dependencies)
    (hne : schema ≠ []) (hallow : opts.allowedAPIs = [])
    (hforb : opts.forbiddenAPIs = []) (hmax : 1 ≤ opts.max) :
    collectApis schema = [m] ∧ validateSchema opts schema = none := by
  have hc : collectApis schema = [m] :=
    collectApis_const schema m (fun x hx => (hall x hx).1) hne
  refine ⟨hc, ?_⟩
  have hs : (schema.any fun x => x.2.method == "" || selfDependent x) = false := by
    apply structural_ok_any_false
    intro x hx
    exact ⟨by rw [(hall x hx).1]; exact hm, (hall x hx).2⟩
  rw [validateSchema_reduce opts schema hs (by rw [hc]; simp)]
  rw [hc]
  have h1 : ¬ ([m].length > opts.max) := by simp; omega
  rw [if_neg h1]
  simp [hallow, hforb]

/-- Witness for C10 at a concrete input: three sub-calls all targeting
`m.x` pass validation under `max = 1`. -/
theorem C10_distinct_method_count_witness :
    collectApis threeSameMethod = ["m.x"] ∧
    validateSchema maxOneOptions threeSameMethod = none :=
  C10_distinct_method_count maxOneOptions threeSameMethod "m.x" (by decide)
    (by decide) (by decide) rfl rfl (by decide)

end BaijiGateway

namespace BaijiGateway

/-! ## C7: the allow/deny policy check -/

/-- C7 (counterexample): the document references `internal.secret`, which
matches the deny pattern `internal.*` of the policy (with no allow-list
configured), yet validation returns InvalidRequestBody (status 422), not
ForbiddenRequest, because the sub-call also depends on itself and the
structural check runs first. -/
theorem C7_forbidden_counterexample :
    mmIsMatch "internal.*" "internal.secret" = true ∧
    (∃ x ∈ selfDepDenied, x.2.method = "internal.secret") ∧
    denyOptions.forbiddenAPIs = ["internal.*"] ∧
    denyOptions.allowedAPIs = [] ∧
    validateSchema denyOptions selfDepDenied =
      some (createError 422 "Invalid Request Body") := by
  refine ⟨?_, by decide, by decide, by decide, by decide⟩
  simp [mmIsMatch, globMatch]

/-- C7 (amended): for documents that pass the structural and cardinality
checks, validation returns ForbiddenRequest exactly when some distinct
referenced method matches a deny pattern, or the allow-list is non-empty
and some referenced method matches no allow pattern; a deny match suffices
even when no allow-list is configured, and both conditions produce the
same ForbiddenRequest error. -/
theorem C7_forbidden_policy {P : Type} (opts : Options) (schema : Schema P)
    (h : ∀ x ∈ schema, x.2.method ≠ "" ∧ x.1 ∉ x.2.dependencies)
    (hne : schema ≠ []) (hmax : (collectApis schema).length ≤ opts.max) :
    validateSchema opts schema = some (createError 403 "Forbidden Request") ↔
      ((∃ s ∈ collectApis schema, ∃ p ∈ opts.forbiddenAPIs, mmIsMatch p s = true) ∨
       (opts.allowedAPIs ≠ [] ∧
        ∃ s ∈ collectApis schema, ∀ p ∈ opts.allowedAPIs, mmIsMatch p s = false)) := by
  have hs := structural_ok_any_false h
  have hcne := collectApis_ne_nil schema hne
  have hiff : ((!opts.forbiddenAPIs.isEmpty &&
        !(mm (collectApis schema) opts.forbiddenAPIs).isEmpty) ||
      (!opts.allowedAPIs.isEmpty &&
        (mm (collectApis schema) opts.allowedAPIs).length !=
          (collectApis schema).length)) = true ↔
      ((∃ s ∈ collectApis schema, ∃ p ∈ opts.forbiddenAPIs, mmIsMatch p s = true) ∨
       (opts.allowedAPIs ≠ [] ∧
        ∃ s ∈ collectApis schema, ∀ p ∈ opts.allowedAPIs, mmIsMatch p s = false)) := by
    rw [Bool.or_eq_true, Bool.and_eq_true, Bool.and_eq_true]
    constructor
    · rintro (⟨_, hf2⟩ | ⟨ha1, ha2⟩)
      · exact Or.inl ((mm_isEmpty_false_iff _ _).1 (by simpa using hf2))
      · refine Or.inr ⟨by simpa [List.isEmpty_eq_false] using ha1, ?_⟩
        exact (mm_length_ne_iff _ _).1 (by simpa using ha2)
    · rintro (hex | ⟨hne2, hex⟩)
      · refine Or.inl ⟨?_, by simpa using (mm_isEmpty_false_iff _ _).2 hex⟩
        obtain ⟨s, _, p, hp, _⟩ := hex
        simp [List.isEmpty_eq_false]
        exact List.ne_nil_of_mem hp
      · exact Or.inr ⟨by simpa [List.isEmpty_eq_false] using hne2,
          by simpa using (mm_length_ne_iff _ _).2 hex⟩
  rw [validateSchema_reduce opts schema hs hcne,
    if_neg (by omega : ¬ (collectApis schema).length > opts.max), ← hiff]
  split
  · next hcond => simp [hcond]
  · next hcond => simp [hcond]

/-- Witness for C7 (amended) at a concrete input: with allow `app.*` and
deny `internal.*`, a batch referencing `internal.secret` (well-formed,
within quota). -/
theorem C7_forbidden_policy_witness :
    validateSchema mixedPolicyOptions deniedBatch =
      some (createError 403 "Forbidden Request") ↔
      ((∃ s ∈ collectApis deniedBatch, ∃ p ∈ mixedPolicyOptions.forbiddenAPIs,
          mmIsMatch p s = true) ∨
       (mixedPolicyOptions.allowedAPIs ≠ [] ∧
        ∃ s ∈ collectApis deniedBatch, ∀ p ∈ mixedPolicyOptions.allowedAPIs,
          mmIsMatch p s = false)) :=
  C7_forbidden_policy mixedPolicyOptions deniedBatch (by decide) (by decide) (by decide)

end BaijiGateway

namespace BaijiGateway

/-! ## The grouped execution stack covers the schema -/

theorem pushAt_flatten_perm {A : Type} (g : List (List A)) (i : Nat) (a : A) :
    (pushAt g i a).flatten.Perm (g.flatten ++ [a]) := by
  induction g generalizing i with
  | nil => simp [pushAt]
  | cons b g ih =>
    cases i with
    | zero =>
      simp only [pushAt, List.flatten_cons]
      have h1 : (b ++ [a]) ++ g.flatten = b ++ ([a] ++ g.flatten) := by
        rw [List.append_assoc]
      have h2 : (b ++ g.flatten) ++ [a] = b ++ (g.flatten ++ [a]) := by
        rw [List.append_assoc]
      rw [h1, h2]
      exact List.Perm.append_left b List.perm_append_comm
    | succ i =>
      simp only [pushAt, List.flatten_cons, List.append_assoc]
      exact List.Perm.append_left b (ih i)

theorem groupApis_flatten_perm {P : Type} (l : Schema P) :
    ∀ (order : List String) (group : List (Schema P)),
      (groupApis l order group).flatten.Perm (group.flatten ++ l) := by
  induction l with
  | nil => intro order group; simp [groupApis]
  | cons x rest ih =>
    intro order group
    simp only [groupApis]
    refine (ih _ _).trans ?_
    refine (List.Perm.append_right rest (pushAt_flatten_perm group _ x)).trans ?_
    have h : (group.flatten ++ [x]) ++ rest = group.flatten ++ (x :: rest) := by
      simp [List.append_assoc]
    rw [h]

theorem executionPlan_flatten_perm {P : Type} (schema : Schema P) :
    (executionPlan schema).flatten.Perm schema := by
  unfold executionPlan
  refine (groupApis_flatten_perm _ _ _).trans ?_
  simpa [sortApis] using List.perm_insertionSort (fun a b => apiCompare a b ≤ 0) schema

/-- Every sub-call of a schema with unique names is settled exactly at its
own outcome in the executor's result object. -/
theorem executeApis_lookup {P V E : Type} (registry : Registry P V E)
    (missingErr : String → E) (schema : Schema P)
    (hnd : (schema.map Prod.fst).Nodup) {n : String} {api : Api P}
    (hx : (n, api) ∈ schema) :
    (executeApis registry missingErr schema).lookup n =
      some (callOutcome registry missingErr api) := by
  have hperm := executionPlan_flatten_perm schema
  have hnd2 : ((executionPlan schema).flatten.map Prod.fst).Nodup :=
    (hperm.symm.map Prod.fst).nodup hnd
  have hmem : (n, api) ∈ (executionPlan schema).flatten := hperm.mem_iff.2 hx
  unfold executeApis
  have h := foldl_objSet_lookup (fun y => callOutcome registry missingErr y.2)
    (fun y => y.1) (executionPlan schema).flatten [] (n, api) hnd2 hmem
  simpa using h

/-- The assembled success payload maps each sub-call name to its outcome. -/
theorem assembled_lookup {P V E : Type} (registry : Registry P V E)
    (missingErr : String → E) (schema : Schema P)
    (hnd : (schema.map Prod.fst).Nodup) {n : String} {api : Api P}
    (hx : (n, api) ∈ schema) :
    (forceOrder (executeApis registry missingErr schema) schema).lookup n =
      some (callOutcome registry missingErr api) := by
  have hk : n ∈ schema.map Prod.fst := List.mem_map_of_mem Prod.fst hx
  rw [forceOrder_lookup _ _ _ hk]
  unfold objGet
  rw [executeApis_lookup registry missingErr schema hnd hx]
  rfl

/-! ## C4: per-call fault isolation -/

/-- C4: in a validated batch (unique names) where exactly one sub-call's
invocation fails, the handler still returns a success response whose
payload maps the failing sub-call's name to the captured error value and
every other name to its (successful) outcome. -/
theorem C4_fault_isolation {P V E : Type} (opts : Options)
    (registry : Registry P V E) (missingErr : String → E) (schema : Schema P)
    (n0 : String) (api0 : Api P) (e0 : E)
    (hnd : (schema.map Prod.fst).Nodup)
    (hv : validateSchema opts schema = none)
    (hf : (n0, api0) ∈ schema)
    (herr : callOutcome registry missingErr api0 = CallResult.err e0)
    (hok : ∀ x ∈ schema, x.1 ≠ n0 →
      isOkResult (callOutcome registry missingErr x.2) = true) :
    ∃ out, gatewayHandle opts registry missingErr schema =
        GatewayResponse.success out ∧
      out.lookup n0 = some (CallResult.err e0) ∧
      ∀ x ∈ schema, x.1 ≠ n0 →
        out.lookup x.1 = some (callOutcome registry missingErr x.2) ∧
        isOkResult (callOutcome registry missingErr x.2) = true := by
  refine ⟨forceOrder (executeApis registry missingErr schema) schema, ?_, ?_, ?_⟩
  · simp [gatewayHandle, hv]
  · rw [assembled_lookup registry missingErr schema hnd hf, herr]
  · intro x hx hne
    refine ⟨?_, hok x hx hne⟩
    have hx2 : (x.1, x.2) ∈ schema := by simpa using hx
    exact assembled_lookup registry missingErr schema hnd hx2

/-- Witness for C4 at a concrete input: in `mixedBatch` only `b` (method
`m.bad`) fails; the response is a success mapping `b` to the captured
error and `a`, `c` to their outcomes. -/
theorem C4_fault_isolation_witness :
    ∃ out, gatewayHandle defaultOptions sampleRegistry sampleMissingErr mixedBatch =
        GatewayResponse.success out ∧
      out.lookup "b" = some (CallResult.err "boom") ∧
      ∀ x ∈ mixedBatch, x.1 ≠ "b" →
        out.lookup x.1 = some (callOutcome sampleRegistry sampleMissingErr x.2) ∧
        isOkResult (callOutcome sampleRegistry sampleMissingErr x.2) = true :=
  C4_fault_isolation defaultOptions sampleRegistry sampleMissingErr mixedBatch
    "b" { method := "m.bad", params := 0, dependencies := ["a"] } "boom"
    (by decide) (by decide) (by decide) (by decide) (by decide)

/-! ## C8: unknown method names are captured per call -/

/-- C8: in a validated batch (unique names) containing a sub-call whose
method is absent from the registry snapshot, the handler still returns a
success response; the unresolved sub-call's name maps to the captured
error produced by invoking the missing method, and every other name maps
to its own outcome. -/
theorem C8_unknown_method_captured {P V E : Type} (opts : Options)
    (registry : Registry P V E) (missingErr : String → E) (schema : Schema P)
    (n0 : String) (api0 : Api P)
    (hnd : (schema.map Prod.fst).Nodup)
    (hv : validateSchema opts schema = none)
    (hf : (n0, api0) ∈ schema)
    (hmiss : registry.lookup api0.method = none) :
    ∃ out, gatewayHandle opts registry missingErr schema =
        GatewayResponse.success out ∧
      out.lookup n0 = some (CallResult.err (missingErr api0.method)) ∧
      ∀ x ∈ schema, x.1 ≠ n0 →
        out.lookup x.1 = some (callOutcome registry missingErr x.2) := by
  have hco : callOutcome registry missingErr api0 =
      CallResult.err (missingErr api0.method) := by
    simp [callOutcome, invokeApiByName, hmiss]
  refine ⟨forceOrder (executeApis registry missingErr schema) schema, ?_, ?_, ?_⟩
  · simp [gatewayHandle, hv]
  · rw [assembled_lookup registry missingErr schema hnd hf, hco]
  · intro x hx _
    have hx2 : (x.1, x.2) ∈ schema := by simpa using hx
    exact assembled_lookup registry missingErr schema hnd hx2

/-- Witness for C8 at a concrete input: `missingBatch` references the
unregistered `m.miss`; the response is still a success, with the captured
TypeError under `c` and the normal outcome under `a`. -/
theorem C8_unknown_method_captured_witness :
    ∃ out, gatewayHandle defaultOptions sampleRegistry sampleMissingErr missingBatch =
        GatewayResponse.success out ∧
      out.lookup "c" = some (CallResult.err (sampleMissingErr "m.miss")) ∧
      ∀ x ∈ missingBatch, x.1 ≠ "c" →
        out.lookup x.1 = some (callOutcome sampleRegistry sampleMissingErr x.2) :=
  C8_unknown_method_captured defaultOptions sampleRegistry sampleMissingErr
    missingBatch "c" { method := "m.miss", params := 0, dependencies := ["a"] }
    (by decide) (by decide) (by decide) rfl

/-! ## C5: output shape round-trip -/

/-- C5: for a validated mapping-form document with unique names, the
success payload carries exactly the document's keys, in the document's
order, each exactly once; for a validated array-form document the success
payload is a sequence of the same length in the same positional order
(the values list of the re-ordered result). -/
theorem C5_shape_roundtrip {P V E : Type} (opts : Options)
    (registry : Registry P V E) (missingErr : String → E)
    (schema : Schema P) (l : List (Api P))
    (hnd : (schema.map Prod.fst).Nodup)
    (hv : validateSchema opts schema = none)
    (hv2 : validateSchema opts (arrayToSchema l) = none) :
    (∃ out, gatewayHandle opts registry missingErr schema =
        GatewayResponse.success out ∧
      out.map Prod.fst = schema.map Prod.fst ∧
      ∀ n ∈ schema.map Prod.fst, (out.map Prod.fst).count n = 1) ∧
    (∃ data, gatewayHandleArray opts registry missingErr l =
        GatewayResponse.success data ∧
      data.length = l.length ∧
      data = l.enum.map fun ia =>
        objGet (executeApis registry missingErr (arrayToSchema l)) (toString ia.1)
          CallResult.undef) := by
  constructor
  · refine ⟨forceOrder (executeApis registry missingErr schema) schema,
      by simp [gatewayHandle, hv], forceOrder_keys _ _, ?_⟩
    intro n hn
    rw [forceOrder_keys]
    exact List.count_eq_one_of_mem hnd hn
  · refine ⟨(forceOrder (executeApis registry missingErr (arrayToSchema l))
        (arrayToSchema l)).map Prod.snd, ?_, ?_, ?_⟩
    · simp [gatewayHandleArray, hv2]
    · simp [forceOrder, arrayToSchema, List.length_map, List.enum_length]
    · simp [forceOrder, arrayToSchema, List.map_map, Function.comp]

/-- Witness for C5 at concrete inputs: the mapping-form `mixedBatch` and
the array-form `arrayBatch`. -/
theorem C5_shape_roundtrip_witness :
    (∃ out, gatewayHandle defaultOptions sampleRegistry sampleMissingErr mixedBatch =
        GatewayResponse.success out ∧
      out.map Prod.fst = mixedBatch.map Prod.fst ∧
      ∀ n ∈ mixedBatch.map Prod.fst, (out.map Prod.fst).count n = 1) ∧
    (∃ data, gatewayHandleArray defaultOptions sampleRegistry sampleMissingErr arrayBatch =
        GatewayResponse.success data ∧
      data.length = arrayBatch.length ∧
      data = arrayBatch.enum.map fun ia =>
        objGet (executeApis sampleRegistry sampleMissingErr (arrayToSchema arrayBatch))
          (toString ia.1) CallResult.undef) :=
  C5_shape_roundtrip defaultOptions sampleRegistry sampleMissingErr mixedBatch
    arrayBatch (by decide) (by decide) (by decide)

end BaijiGateway

namespace BaijiGateway

/-! ## C1: stages and dependency signatures -/

theorem getD_indexOf {l : List String} {k : String} (h : k ∈ l) :
    l.getD (List.indexOf k l) "" = k := by
  have hlt := List.indexOf_lt_length.2 h
  rw [List.getD_eq_getElem _ _ hlt]
  exact List.getElem_indexOf hlt

theorem pushAt_getD {A : Type} :
    ∀ (g : List (List A)) (i : Nat) (a : A), i ≤ g.length →
      ∀ j, (pushAt g i a).getD j [] =
        if j = i then g.getD i [] ++ [a] else g.getD j [] := by
  intro g
  induction g with
  | nil =>
    intro i a hi j
    have h0 : i = 0 := Nat.le_zero.1 hi
    subst h0
    cases j <;> simp [pushAt]
  | cons b g ih =>
    intro i a hi j
    cases i with
    | zero =>
      cases j with
      | zero => simp [pushAt]
      | succ j => simp [pushAt]
    | succ i =>
      have hi2 : i ≤ g.length := Nat.succ_le_succ_iff.1 hi
      cases j with
      | zero => simp [pushAt]
      | succ j =>
        simp only [pushAt, List.getD_cons_succ]
        rw [ih i a hi2 j]
        by_cases hj : j = i <;> simp [hj]

theorem pushAt_length {A : Type} :
    ∀ (g : List (List A)) (i : Nat) (a : A), i ≤ g.length →
      (pushAt g i a).length = if i < g.length then g.length else g.length + 1 := by
  intro g
  induction g with
  | nil =>
    intro i a hi
    have h0 : i = 0 := Nat.le_zero.1 hi
    subst h0
    simp [pushAt]
  | cons b g ih =>
    intro i a hi
    cases i with
    | zero => simp [pushAt]
    | succ i =>
      have hi2 : i ≤ g.length := Nat.succ_le_succ_iff.1 hi
      simp only [pushAt, List.length_cons]
      rw [ih i a hi2]
      by_cases h : i < g.length <;> simp [h, Nat.succ_lt_succ_iff]

theorem groupApis_keyed {P : Type} (l : Schema P) :
    ∀ (order : List String) (group : List (Schema P)),
      StagesKeyed order group →
      ∃ order1, StagesKeyed order1 (groupApis l order group) := by
  induction l with
  | nil => intro order group h; exact ⟨order, h⟩
  | cons x rest ih =>
    intro order group h
    obtain ⟨hlen, hkey⟩ := h
    simp only [groupApis]
    by_cases hc : order.contains (depKey x)
    · rw [if_pos hc]
      have hmem : depKey x ∈ order := by simpa using hc
      have hidx : List.indexOf (depKey x) order < order.length :=
        List.indexOf_lt_length.2 hmem
      have hle : List.indexOf (depKey x) order ≤ group.length := by omega
      apply ih
      constructor
      · rw [pushAt_length group _ x hle, if_pos (by omega)]
        exact hlen
      · intro i y hy
        rw [pushAt_getD group _ x hle i] at hy
        by_cases hj : i = List.indexOf (depKey x) order
        · subst hj
          rw [if_pos rfl] at hy
          rcases List.mem_append.1 hy with hy1 | hy1
          · exact hkey _ y hy1
          · rw [List.mem_singleton] at hy1
            subst hy1
            exact (getD_indexOf hmem).symm
        · rw [if_neg hj] at hy
          exact hkey i y hy
    · rw [if_neg hc]
      have hnmem : depKey x ∉ order := by simpa using hc
      have hidx : List.indexOf (depKey x) (order ++ [depKey x]) = order.length := by
        rw [List.indexOf_append_of_not_mem hnmem, List.indexOf_cons_self]
        omega
      rw [hidx]
      have hle : order.length ≤ group.length := by omega
      apply ih
      constructor
      · rw [pushAt_length group _ x hle, if_neg (by omega)]
        simp [hlen]
      · intro i y hy
        rw [pushAt_getD group _ x hle i] at hy
        by_cases hj : i = order.length
        · rw [if_pos hj] at hy
          rw [List.getD_eq_default _ _ (by omega)] at hy
          rw [List.nil_append, List.mem_singleton] at hy
          subst hy
          rw [hj, List.getD_append_right _ _ _ _ (Nat.le_refl _)]
          simp
        · rw [if_neg hj] at hy
          by_cases hlt : i < group.length
          · rw [List.getD_append _ _ _ _ (by omega)]
            exact hkey i y hy
          · rw [List.getD_eq_default _ _ (by omega)] at hy
            simp at hy

theorem executionPlan_keyed {P : Type} (schema : Schema P) :
    ∃ order1, StagesKeyed order1 (executionPlan schema) := by
  unfold executionPlan
  refine groupApis_keyed _ [] [] ⟨rfl, ?_⟩
  intro i x hx
  rw [List.getD_nil] at hx
  cases hx

theorem plan_bucket_same_key {P : Type} (schema : Schema P) :
    ∀ b ∈ executionPlan schema, ∀ x ∈ b, ∀ y ∈ b, depKey x = depKey y := by
  obtain ⟨order1, hlen, hkey⟩ := executionPlan_keyed schema
  intro b hb x hx y hy
  obtain ⟨i, hget⟩ := List.mem_iff_get.1 hb
  have hbd : (executionPlan schema).getD i.1 [] = b := by
    rw [List.getD_eq_getElem _ _ i.2, ← List.get_eq_getElem]
    exact hget
  rw [← hbd] at hx hy
  rw [hkey i.1 x hx, hkey i.1 y hy]

theorem plan_bucket_subset {P : Type} (schema : Schema P) :
    ∀ b ∈ executionPlan schema, ∀ x ∈ b, x ∈ schema := by
  intro b hb x hx
  exact (executionPlan_flatten_perm schema).mem_iff.1 (List.mem_flatten.2 ⟨b, hb, hx⟩)

/-- C1 (counterexample): the two-sub-call cycle `a ↔ b` has no
self-dependency and only defined dependency names, so validation accepts
it, yet the produced plan cannot and does not place each sub-call strictly
after its dependency. -/
theorem C1_plan_counterexample :
    validateSchema defaultOptions cycSchema = none ∧
    (∀ x ∈ cycSchema, x.1 ∉ x.2.dependencies) ∧
    depsDefined cycSchema = true ∧
    planRespectsDeps cycSchema (executionPlan cycSchema) = false := by decide

/-- C1 (amended): the plan is total — the concatenation of its stages is a
permutation of the document, so each sub-call appears in exactly one stage
once names are unique — and any two sub-calls sharing a stage have equal
dependency-signature strings; hence, whenever equal signatures only arise
from equal dependency lists among the document's entries (no signature
aliasing), no sub-call shares a stage with any of its dependencies.  The
claimed strictly-later-stage ordering itself fails (see the cycle
counterexample). -/
theorem C1_grouping_amended {P : Type} (schema : Schema P)
    (hself : ∀ x ∈ schema, x.1 ∉ x.2.dependencies)
    (hinj : ∀ x ∈ schema, ∀ y ∈ schema, depKey x = depKey y →
      x.2.dependencies = y.2.dependencies) :
    (executionPlan schema).flatten.Perm schema ∧
    ∀ b ∈ executionPlan schema, ∀ x ∈ b, ∀ y ∈ b,
      depKey x = depKey y ∧ y.1 ∉ x.2.dependencies := by
  refine ⟨executionPlan_flatten_perm schema, ?_⟩
  intro b hb x hx y hy
  have hk := plan_bucket_same_key schema b hb x hx y hy
  refine ⟨hk, ?_⟩
  intro hmem
  have hxs := plan_bucket_subset schema b hb x hx
  have hys := plan_bucket_subset schema b hb y hy
  have hd := hinj x hxs y hys hk
  exact hself y hys (hd ▸ hmem)

/-- Witness for C1 (amended) at a concrete input: the example app's
three-call chain. -/
theorem C1_grouping_amended_witness :
    (executionPlan chainSchema).flatten.Perm chainSchema ∧
    ∀ b ∈ executionPlan chainSchema, ∀ x ∈ b, ∀ y ∈ b,
      depKey x = depKey y ∧ y.1 ∉ x.2.dependencies :=
  C1_grouping_amended chainSchema (by decide) (by decide)

end BaijiGateway

namespace BaijiGateway

/-- Witness for C9 at a concrete input: re-assembling `sampleResult`
against `mixedBatch` a second time changes nothing. -/
theorem C9_assembly_idempotent_witness :
    forceOrder (forceOrder sampleResult mixedBatch) mixedBatch =
      forceOrder sampleResult mixedBatch :=
  C9_assembly_idempotent sampleResult mixedBatch

end BaijiGateway
